import Mathlib

/-!
Verification of the minibadge-wiki converters (`pdfparse.py`, `formparse.py`).

Lines of page text are modelled as `List Char`; Python string operations
(`strip`, `split`, `capitalize`, substring `in`, `startswith`, regex
substitutions used by the source) are embedded as executable functions on
`List Char`, restricted to their ASCII behaviour (all label tokens and all
decoration patterns in the source are ASCII).  Integers are `Int`/`Nat`.
Fallible extraction returns `Option`.  File/network side effects (image file
writes, HTTP downloads) are outside the model: the PDF pipeline records the
relative URL strings it would emit, and the CSV pipeline takes the downloader
as an explicit function argument.
-/

namespace Minibadge

/-- Python `str.isspace` on the ASCII whitespace characters (space, tab,
newline, carriage return, vertical tab, form feed). -/
def pyIsSpace (c : Char) : Bool :=
  c = ' ' || c = '\t' || c = '\n' || c = '\r' || c = '\x0b' || c = '\x0c'

/-- Python `str.isdigit` restricted to a single ASCII character. -/
def pyIsDigitCh (c : Char) : Bool :=
  '0' ≤ c && c ≤ '9'

/-- Right strip: drop the trailing run of characters satisfying `p`. -/
def rstripP (p : Char → Bool) (l : List Char) : List Char :=
  (l.reverse.dropWhile p).reverse

/-- Python `str.strip(chars)`: drop leading and trailing runs satisfying `p`
(right side first; the two sides are independent). -/
def pyStripP (p : Char → Bool) (l : List Char) : List Char :=
  (rstripP p l).dropWhile p

/-- Python `str.strip()` (whitespace strip). -/
def pyStrip (l : List Char) : List Char :=
  pyStripP pyIsSpace l

/-- Python substring test `pat in s`. -/
def pyIn (pat : List Char) : List Char → Bool
  | [] => pat.isEmpty
  | c :: cs => pat.isPrefixOf (c :: cs) || pyIn pat cs

/-- Python `sep.join(parts)`. -/
def joinSep (sep : List Char) : List (List Char) → List Char
  | [] => []
  | [l] => l
  | l :: ls => l ++ sep ++ joinSep sep ls

/-- Python `str.split()` with no argument: split on whitespace runs,
discarding empty chunks. -/
def pySplitWS (l : List Char) : List (List Char) :=
  (l.splitOnP pyIsSpace).filter (fun w => !w.isEmpty)

/-- Python `str.capitalize()`: first character uppercased, the rest
lowercased (ASCII case mapping). -/
def pyCapitalize : List Char → List Char
  | [] => []
  | c :: cs => c.toUpper :: cs.map Char.toLower

/-- Python `str.lower()` (ASCII case mapping). -/
def pyLower (l : List Char) : List Char :=
  l.map Char.toLower

/-- `f"...".replace("\\", "/")` from `pdfparse.main`: turn each backslash
into a forward slash. -/
def slashize (l : List Char) : List Char :=
  l.map (fun c => if c = '\\' then '/' else c)

/-- `pdfparse.page_to_category`: map a 1-based page number to a category
label via nine fixed closed intervals, empty string outside all of them. -/
def page_to_category (n : Int) : List Char :=
  if 6 ≤ n ∧ n ≤ 24 then "Sponsor".toList
  else if 25 ≤ n ∧ n ≤ 27 then "Official".toList
  else if 28 ≤ n ∧ n ≤ 47 then "Community".toList
  else if 48 ≤ n ∧ n ≤ 53 then "Event".toList
  else if 54 ≤ n ∧ n ≤ 66 then "Contest".toList
  else if 67 ≤ n ∧ n ≤ 69 then "Award".toList
  else if 70 ≤ n ∧ n ≤ 265 then "Personal".toList
  else if 266 ≤ n ∧ n ≤ 267 then "Accessory".toList
  else if 268 ≤ n ∧ n ≤ 277 then "Other".toList
  else []

/-- `is_decor` from `pdfparse.clean_lines`: a line is layout decoration if it
is digits plus whitespace only, a single uppercase letter, a merged
FRONT/BACK watermark after removing spaces, or a short (≤ 2 chars) digit
string. -/
def is_decor (ln : List Char) : Bool :=
  (!ln.isEmpty && ln.all (fun ch => pyIsDigitCh ch || pyIsSpace ch))
  || (decide (ln.length = 1) && ln.all (fun ch => ch.isAlpha && ch.isUpper))
  || (let ns := ln.filter (fun ch => !(ch = ' '))
      ns = "FRONT".toList || ns = "BACK".toList || ns = "TNORF".toList || ns = "KCAB".toList)
  || ((!ln.isEmpty && ln.all pyIsDigitCh) && decide (ln.length ≤ 2))

/-- The repair step of `pdfparse.clean_lines`: regex
`^([A-Z])\s+(-.*)$` — one uppercase letter, whitespace, then a dash-prefixed
remainder; the line is replaced by the remainder.  Extracted page lines
contain no newline, so `.`/`$` impose no extra condition. -/
def repairLine (ln : List Char) : List Char :=
  match ln with
  | [] => ln
  | c :: rest =>
    let t := rest.dropWhile pyIsSpace
    if c.isUpper && !(rest.takeWhile pyIsSpace).isEmpty && t.head? = some '-' then t
    else ln

/-- `pdfparse.clean_lines` from the raw text lines of a page (the result of
`extract_text().splitlines()`): strip each line and drop empties, drop
decoration lines, then apply the single-letter repair. -/
def clean_lines (raw : List (List Char)) : List (List Char) :=
  let raw_lines := (raw.map pyStrip).filter (fun l => !l.isEmpty)
  let filtered := raw_lines.filter (fun l => !is_decor l)
  filtered.map repairLine

/-- The fixed block-terminator marker of `pdfparse.split_page_blocks`. -/
def markerTok : List Char := "BOARD/LED TYPE".toList

/-- Loop of `pdfparse.split_page_blocks`: `acc` is the slice
`lines[start : i]` accumulated so far; on a marker line the slice
`lines[start : i+1]` is emitted (the emptiness guard of the source is kept,
though the slice always contains at least the marker line). -/
def splitBlocksAux (acc : List (List Char)) : List (List Char) → List (List (List Char))
  | [] => []
  | ln :: rest =>
    if pyIn markerTok ln then
      let block := acc ++ [ln]
      if block.isEmpty then splitBlocksAux [] rest else block :: splitBlocksAux [] rest
    else splitBlocksAux (acc ++ [ln]) rest

/-- `pdfparse.split_page_blocks`: split cleaned lines into badge blocks, each
ending at (and including) a line containing the marker. -/
def split_page_blocks (lines : List (List Char)) : List (List (List Char)) :=
  splitBlocksAux [] lines

/-- The seven text fields extracted from one badge block by
`pdfparse.parse_badge_core`. -/
structure BadgeCore where
  title : List Char
  author : List Char
  description : List Char
  solderingDifficulty : List Char
  rarity : List Char
  howToAcquire : List Char
  solderingInstructions : List Char
deriving DecidableEq

/-- Python `next((i for i, l in enumerate(lines) if p l), None)`. -/
def findIdxO (p : List Char → Bool) : List (List Char) → Option Nat
  | [] => none
  | l :: ls => if p l then some 0 else (findIdxO p ls).map (fun i => i + 1)

/-- Python `s.split(pat, 1)[1]`: the remainder after the first occurrence of
`pat` (used only when `pat` occurs in `s`). -/
def afterTok (pat : List Char) : List Char → List Char
  | [] => []
  | c :: cs => if pat.isPrefixOf (c :: cs) then (c :: cs).drop pat.length else afterTok pat cs

def designedTok : List Char := "Designed By:".toList

def diffTok : List Char := "DIFFICULTY:".toList

def howTok : List Char := "HOW DO I GET ONE?".toList

def rarityTok : List Char := "RARITY:".toList

def asmTok : List Char := "ASSEMBLY INSTRUCTIONS:".toList

/-- `pdfparse.parse_badge_core`: extract the seven fields from one block's
lines; `none` both for an empty block and when the final guard (empty
difficulty and empty description) rejects the block. -/
def parse_badge_core (lines : List (List Char)) : Option BadgeCore :=
  if lines.isEmpty then none else
  let title := pyStrip (lines.headD [])
  let author_idx := findIdxO (fun l => pyIn designedTok l) lines
  let author := match author_idx with
    | some i => pyStrip (afterTok designedTok (lines.getD i []))
    | none => []
  let diff_idx := findIdxO (fun l => pyIn diffTok l && pyIn howTok l) lines
  let rarity_idx := findIdxO (fun l => rarityTok.isPrefixOf (pyStrip l)) lines
  let asm_idx := findIdxO (fun l => asmTok.isPrefixOf (pyStrip l)) lines
  let start_desc := match author_idx with | some i => i + 1 | none => 1
  let end_desc := match diff_idx with | some i => i | none => lines.length
  let desc_lines := ((lines.drop start_desc).take (end_desc - start_desc)).filter
    (fun l => !(pyStrip l).isEmpty)
  let description := pyStrip (joinSep ['\n'] desc_lines)
  let dh : List Char × List Char := match diff_idx with
    | some i =>
      if i + 1 < lines.length then
        match pySplitWS (lines.getD (i + 1) []) with
        | [] => ([], [])
        | tok :: restToks => (pyCapitalize tok, pyStrip (joinSep [' '] restToks))
      else ([], [])
    | none => ([], [])
  let rarity := match rarity_idx with
    | some i => if i + 1 < lines.length then pyCapitalize (pyStrip (lines.getD (i + 1) [])) else []
    | none => []
  let instructions := match asm_idx with
    | some i => pyStrip (joinSep ['\n'] ((lines.drop (i + 1)).takeWhile (fun l => !(pyIn markerTok l))))
    | none => []
  if dh.1.isEmpty && description.isEmpty then none
  else some { title := title, author := author, description := description,
              solderingDifficulty := dh.1, rarity := rarity, howToAcquire := dh.2,
              solderingInstructions := instructions }

/-- A character allowed to survive slug collapsing: `[a-z0-9]`. -/
def isLowerAlnum (c : Char) : Bool :=
  ('a' ≤ c && c ≤ 'z') || ('0' ≤ c && c ≤ '9')

/-- Regex substitution `[^a-z0-9]+ -> "-"`: each maximal run of
non-alphanumeric characters becomes one dash; `inRun` records whether the
previous character was part of such a run. -/
def collapseNARun (inRun : Bool) : List Char → List Char
  | [] => []
  | c :: cs =>
    if isLowerAlnum c then c :: collapseNARun false cs
    else if inRun then collapseNARun true cs
    else '-' :: collapseNARun true cs

def collapseNonAlnum (l : List Char) : List Char :=
  collapseNARun false l

/-- Regex substitution `-+ -> "-"`: each maximal run of dashes becomes one
dash. -/
def collapseDashRun (prevDash : Bool) : List Char → List Char
  | [] => []
  | c :: cs =>
    if c = '-' then
      (if prevDash then collapseDashRun true cs else '-' :: collapseDashRun true cs)
    else c :: collapseDashRun false cs

def collapseDashes (l : List Char) : List Char :=
  collapseDashRun false l

/-- `slugify` (identical in `pdfparse.py` and `formparse.py`): strip,
lowercase, delete apostrophes (ASCII `0x27` and U+2019), collapse
non-alphanumeric runs to a dash, collapse dash runs, strip dashes, default
`"badge"` when empty. -/
def slugify (title : List Char) : List Char :=
  let t1 := pyLower (pyStrip title)
  let t2 := t1.filter (fun c => !(c = Char.ofNat 39 || c = Char.ofNat 8217))
  let t3 := collapseNonAlnum t2
  let t4 := collapseDashes t3
  let t5 := pyStripP (fun c => c = '-') t4
  if t5.isEmpty then "badge".toList else t5

/-- One embedded page image as delivered by the extraction boundary:
pixel dimensions, format extension, encoded payload bytes. -/
structure EmbeddedImage where
  width : Nat
  height : Nat
  ext : List Char
  data : List Nat
deriving DecidableEq

def imgArea (i : EmbeddedImage) : Nat :=
  i.width * i.height

/-- Candidate filter of `pdfparse.get_front_back_images`:
`min(w, h) > 300 and 0.7 < w/h < 1.3` (aspect is `0` when `h = 0`).  The
ratio bounds are modelled exactly over the rationals by cross-multiplying:
`0.7 < w/h ↔ 7h < 10w` and `w/h < 1.3 ↔ 10w < 13h` for `h > 0`. -/
def isCandidate (i : EmbeddedImage) : Bool :=
  decide (300 < min i.width i.height) && decide (0 < i.height)
    && decide (7 * i.height < 10 * i.width) && decide (10 * i.width < 13 * i.height)

/-- Stable descending insertion by area: `x` goes in front of the first
element whose area is at most `x`'s (so earlier-listed images win area
ties), matching Python's stable `sorted(key=area, reverse=True)`. -/
def insertByArea (x : EmbeddedImage) : List EmbeddedImage → List EmbeddedImage
  | [] => [x]
  | y :: ys => if imgArea y ≤ imgArea x then x :: y :: ys else y :: insertByArea x ys

/-- Stable sort by area, descending (Python `sorted(candidates,
key=area, reverse=True)`). -/
def sortByAreaDesc : List EmbeddedImage → List EmbeddedImage
  | [] => []
  | x :: xs => insertByArea x (sortByAreaDesc xs)

/-- `pdfparse.get_front_back_images`: filter to roughly-square large images,
sort by area descending (stable), keep at most two. -/
def get_front_back_images (imgs : List EmbeddedImage) : List EmbeddedImage :=
  (sortByAreaDesc (imgs.filter isCandidate)).take 2

/-- One PDF page at the extraction boundary: its raw text lines and its
embedded images, in extraction order. -/
structure Page where
  rawLines : List (List Char)
  images : List EmbeddedImage
deriving DecidableEq

/-- The flat output record written to the JSON array (shared schema of both
converters). -/
structure Badge where
  title : List Char
  author : List Char
  profilePictureUrl : List Char
  frontImageUrl : List Char
  backImageUrl : List Char
  description : List Char
  specialInstructions : List Char
  solderingInstructions : List Char
  solderingDifficulty : List Char
  quantityMade : Int
  category : List Char
  conferenceYear : List Char
  boardHouse : List Char
  howToAcquire : List Char
  rarity : List Char
  timestamp : List Char
deriving DecidableEq

def conferenceYearConst : List Char := "2025".toList

/-- The per-page body of the loop in `pdfparse.main` (lines 231-288): clean
the page text, split into blocks, parse only the FIRST block, select the
front/back images, and assemble the record; `none` when the page has no
blocks or its first block is rejected. -/
def process_page (images_dir : List Char) (page_num : Int) (pg : Page) : Option Badge :=
  let category := page_to_category page_num
  let lines := clean_lines pg.rawLines
  let blocks := split_page_blocks lines
  match blocks with
  | [] => none
  | b0 :: _ =>
    match parse_badge_core b0 with
    | none => none
    | some core =>
      let slug := slugify core.title
      let candidates := get_front_back_images pg.images
      let front_url := match candidates.head? with
        | some img => slashize (images_dir ++ ('/' :: (slug ++ "-front.".toList ++ img.ext)))
        | none => []
      let back_url := match (candidates.drop 1).head? with
        | some img => slashize (images_dir ++ ('/' :: (slug ++ "-back.".toList ++ img.ext)))
        | none => []
      some { title := core.title, author := core.author, profilePictureUrl := [],
             frontImageUrl := front_url, backImageUrl := back_url,
             description := core.description, specialInstructions := [],
             solderingInstructions := core.solderingInstructions,
             solderingDifficulty := core.solderingDifficulty, quantityMade := 0,
             category := category, conferenceYear := conferenceYearConst,
             boardHouse := [], howToAcquire := core.howToAcquire,
             rarity := core.rarity, timestamp := [] }

/-- The page loop of `pdfparse.main` with its 1-based page counter. -/
def mainBadgesAux (images_dir : List Char) (page_num : Int) : List Page → List Badge
  | [] => []
  | pg :: rest =>
    match process_page images_dir page_num pg with
    | some b => b :: mainBadgesAux images_dir (page_num + 1) rest
    | none => mainBadgesAux images_dir (page_num + 1) rest

/-- `pdfparse.main` restricted to its pure output: the badge list appended
over the document's pages in order. -/
def mainBadges (images_dir : List Char) (pages : List Page) : List Badge :=
  mainBadgesAux images_dir 1 pages

/-- Resolved CSV headers of `formparse.py`: for each logical field, the
actual column header chosen by `resolve_headers` (`none` when no column
matched). -/
structure HeaderMap where
  title : Option (List Char)
  author : Option (List Char)
  category : Option (List Char)
  conferenceYear : Option (List Char)
  solderingDifficulty : Option (List Char)
  rarity : Option (List Char)
  quantityMade : Option (List Char)
  howToAcquire : Option (List Char)
  boardHouse : Option (List Char)
  description : Option (List Char)
  specialInstructions : Option (List Char)
  solderingInstructions : Option (List Char)
  profilePictureUrl : Option (List Char)
  frontImageUrl : Option (List Char)
  backImageUrl : Option (List Char)
  timestamp : Option (List Char)
deriving DecidableEq

/-- A CSV row as produced by `csv.DictReader`: header/value pairs. -/
def CsvRow : Type := List (List Char × List Char)

/-- `formparse._get`: fetch a column's value from the row, stripped; empty
when the column is unresolved or absent. -/
def pyGet (row : CsvRow) (col : Option (List Char)) : List Char :=
  match col with
  | none => []
  | some c => pyStrip ((List.lookup c row).getD [])

/-- Numeric value of an all-digit string. -/
def digitsVal (l : List Char) : Nat :=
  l.foldl (fun acc c => acc * 10 + (c.toNat - 48)) 0

/-- `formparse._parse_int`: Python `int(val)` with default `0` on failure —
optional surrounding whitespace, optional sign, then decimal digits (the
rarely used underscore digit separators of Python's `int` are not
modelled). -/
def pyParseInt (s : List Char) : Int :=
  let t := pyStrip s
  match t with
  | [] => 0
  | c :: rest =>
    if c = '-' then (if !rest.isEmpty && rest.all pyIsDigitCh then -(digitsVal rest : Int) else 0)
    else if c = '+' then (if !rest.isEmpty && rest.all pyIsDigitCh then (digitsVal rest : Int) else 0)
    else if t.all pyIsDigitCh then (digitsVal t : Int) else 0

/-- `formparse.badge_key`: the (title slug, trimmed conference year) pair
used to match CSV rows to existing JSON badges. -/
def badge_key (title year : List Char) : List Char × List Char :=
  (slugify title, pyStrip year)

/-- The per-row body of the loop in `formparse.main` (lines 289-342).
`existing` is the `existing_by_key` cache (existing output JSON keyed by
`badge_key`); `download` abstracts `download_image_to_repo` (it receives the
raw URL and the base name, and its result falls back to the raw URL via the
source's `or`); `none` models the `continue` on a fully empty row. -/
def process_row (existing : List ((List Char × List Char) × Badge))
    (download : List Char → List Char → List Char)
    (hm : HeaderMap) (row : CsvRow) : Option Badge :=
  let title := pyGet row hm.title
  let timestamp := pyGet row hm.timestamp
  let year := pyGet row hm.conferenceYear
  if title.isEmpty && timestamp.isEmpty && year.isEmpty then none
  else
    let slug := if title.isEmpty then "badge".toList else slugify title
    let key := badge_key title year
    let qty := pyParseInt (pyGet row hm.quantityMade)
    let raw_profile := pyGet row hm.profilePictureUrl
    let raw_front := pyGet row hm.frontImageUrl
    let raw_back := pyGet row hm.backImageUrl
    let urls : List Char × List Char × List Char := match List.lookup key existing with
      | some eb => (eb.profilePictureUrl, eb.frontImageUrl, eb.backImageUrl)
      | none =>
        let p0 := download raw_profile (slug ++ "-profile".toList)
        let f0 := download raw_front (slug ++ "-front".toList)
        let b0 := download raw_back (slug ++ "-back".toList)
        ((if p0.isEmpty then raw_profile else p0),
         (if f0.isEmpty then raw_front else f0),
         (if b0.isEmpty then raw_back else b0))
    some { title := title, author := pyGet row hm.author,
           profilePictureUrl := urls.1, frontImageUrl := urls.2.1,
           backImageUrl := urls.2.2, description := pyGet row hm.description,
           specialInstructions := pyGet row hm.specialInstructions,
           solderingInstructions := pyGet row hm.solderingInstructions,
           solderingDifficulty := pyGet row hm.solderingDifficulty,
           quantityMade := qty, category := pyGet row hm.category,
           conferenceYear := year, boardHouse := pyGet row hm.boardHouse,
           howToAcquire := pyGet row hm.howToAcquire,
           rarity := pyGet row hm.rarity, timestamp := timestamp }

/-- The raw page text of the spec's end-to-end example, split into lines. -/
def rawDemoLines : List (List Char) :=
  ["My Badge".toList, "Designed By: Alice".toList, "Fun fact".toList,
   "DIFFICULTY: HOW DO I GET ONE?".toList, "BEGINNER Ask Alice".toList,
   "RARITY:".toList, "Rare".toList, "ASSEMBLY INSTRUCTIONS:".toList,
   "Solder it".toList, "BOARD/LED TYPE".toList]

/-- A page text carrying two complete badge blocks (two marker lines). -/
def rawDemoTwice : List (List Char) := rawDemoLines ++ rawDemoLines

def demoPage : Page := ⟨rawDemoLines, []⟩

def demoPageTwice : Page := ⟨rawDemoTwice, []⟩

/-- The record the pipeline produces from `demoPage` as page 1 (category is
empty: page 1 is outside all category ranges; no images). -/
def demoBadge : Badge :=
  { title := "My Badge".toList, author := "Alice".toList, profilePictureUrl := [],
    frontImageUrl := [], backImageUrl := [], description := "Fun fact".toList,
    specialInstructions := [], solderingInstructions := "Solder it".toList,
    solderingDifficulty := "Beginner".toList, quantityMade := 0, category := [],
    conferenceYear := "2025".toList, boardHouse := [],
    howToAcquire := "Ask Alice".toList, rarity := "Rare".toList, timestamp := [] }

/-- The field set of the spec's end-to-end example. -/
def demoCore : BadgeCore :=
  { title := "My Badge".toList, author := "Alice".toList,
    description := "Fun fact".toList, solderingDifficulty := "Beginner".toList,
    rarity := "Rare".toList, howToAcquire := "Ask Alice".toList,
    solderingInstructions := "Solder it".toList }

def img500 : EmbeddedImage := ⟨500, 500, "png".toList, [1]⟩

def img800 : EmbeddedImage := ⟨800, 800, "png".toList, [2]⟩

def imgWide : EmbeddedImage := ⟨100, 250, "png".toList, [3]⟩

def img45 : EmbeddedImage := ⟨400, 500, "png".toList, [4]⟩

/-- A fully resolved header map (every logical field found its CSV column,
with the headers of `CSV_MAP`). -/
def demoHM : HeaderMap :=
  { title := some "Title of your badge".toList,
    author := some "Your handle/name".toList,
    category := some "Type of badge".toList,
    conferenceYear := some "Year produced".toList,
    solderingDifficulty := some "Soldering difficulty".toList,
    rarity := some "Rarity".toList,
    quantityMade := some "How many did you make?".toList,
    howToAcquire := some "How do people get one?".toList,
    boardHouse := some "PCB company used".toList,
    description := some "Description".toList,
    specialInstructions := some "Special instructions".toList,
    solderingInstructions := some "Assembly and soldering instructions".toList,
    profilePictureUrl := some "Your profile picture".toList,
    frontImageUrl := some "Front image".toList,
    backImageUrl := some "Back image".toList,
    timestamp := some "Timestamp".toList }

def demoRow : CsvRow :=
  [("Title of your badge".toList, "My Badge".toList),
   ("Your handle/name".toList, "Alice".toList),
   ("Type of badge".toList, "Community".toList),
   ("Year produced".toList, "2025".toList),
   ("Soldering difficulty".toList, "Beginner".toList),
   ("Rarity".toList, "Rare".toList),
   ("How many did you make?".toList, "50".toList),
   ("How do people get one?".toList, "Ask Alice".toList),
   ("PCB company used".toList, "JLC".toList),
   ("Description".toList, "Fun fact".toList),
   ("Special instructions".toList, "None".toList),
   ("Assembly and soldering instructions".toList, "Solder it".toList),
   ("Your profile picture".toList, "http://example.com/p.png".toList),
   ("Front image".toList, "http://example.com/f.png".toList),
   ("Back image".toList, "http://example.com/b.png".toList),
   ("Timestamp".toList, "2025/01/01".toList)]

/-- An existing JSON badge for the same key as `demoRow`, with already
cached image paths. -/
def demoExistingBadge : Badge :=
  { title := "My Badge".toList, author := "Old Author".toList,
    profilePictureUrl := "images/my-badge-profile.jpg".toList,
    frontImageUrl := "images/my-badge-front.jpg".toList,
    backImageUrl := "images/my-badge-back.jpg".toList,
    description := "Old description".toList, specialInstructions := [],
    solderingInstructions := [], solderingDifficulty := "Advanced".toList,
    quantityMade := 10, category := "Community".toList,
    conferenceYear := "2025".toList, boardHouse := [],
    howToAcquire := [], rarity := [], timestamp := "2024/01/01".toList }

def demoExisting : List ((List Char × List Char) × Badge) :=
  [(badge_key "My Badge".toList "2025".toList, demoExistingBadge)]

def demoDownload : List Char → List Char → List Char :=
  fun _ base => "images/".toList ++ base ++ ".jpg".toList

def demoDownload2 : List Char → List Char → List Char :=
  fun _ _ => "ELSEWHERE".toList

/-- The record `process_row` emits for `demoRow` against `demoExisting`:
image URLs verbatim from the cached badge, all other fields from the CSV
row. -/
def demoMergedBadge : Badge :=
  { title := "My Badge".toList, author := "Alice".toList,
    profilePictureUrl := "images/my-badge-profile.jpg".toList,
    frontImageUrl := "images/my-badge-front.jpg".toList,
    backImageUrl := "images/my-badge-back.jpg".toList,
    description := "Fun fact".toList, specialInstructions := "None".toList,
    solderingInstructions := "Solder it".toList,
    solderingDifficulty := "Beginner".toList, quantityMade := 50,
    category := "Community".toList, conferenceYear := "2025".toList,
    boardHouse := "JLC".toList, howToAcquire := "Ask Alice".toList,
    rarity := "Rare".toList, timestamp := "2025/01/01".toList }

/-- The nine closed page-number intervals of `page_to_category`, in source
order. -/
def catRanges : List (Int × Int) :=
  [(6, 24), (25, 27), (28, 47), (48, 53), (54, 66), (67, 69), (70, 265),
   (266, 267), (268, 277)]

end Minibadge

namespace Minibadge

/-- C1: on the spec's ten example lines, sanitization, segmentation and
field extraction yield exactly one record with
title "My Badge", author "Alice", description "Fun fact",
solderingDifficulty "Beginner", howToAcquire "Ask Alice", rarity "Rare"
and solderingInstructions "Solder it". -/
theorem C1_end_to_end_example :
    (split_page_blocks (clean_lines rawDemoLines)).filterMap parse_badge_core = [demoCore] := by
  decide

set_option maxHeartbeats 1600000 in
/-- C6: the page classifier returns each interval's label on that interval,
the empty string outside all nine intervals, and the nine intervals are
pairwise disjoint on 1..400. -/
theorem C6_page_to_category_partition :
    ∀ n : Int,
      ((6 ≤ n ∧ n ≤ 24) → page_to_category n = "Sponsor".toList)
      ∧ ((25 ≤ n ∧ n ≤ 27) → page_to_category n = "Official".toList)
      ∧ ((28 ≤ n ∧ n ≤ 47) → page_to_category n = "Community".toList)
      ∧ ((48 ≤ n ∧ n ≤ 53) → page_to_category n = "Event".toList)
      ∧ ((54 ≤ n ∧ n ≤ 66) → page_to_category n = "Contest".toList)
      ∧ ((67 ≤ n ∧ n ≤ 69) → page_to_category n = "Award".toList)
      ∧ ((70 ≤ n ∧ n ≤ 265) → page_to_category n = "Personal".toList)
      ∧ ((266 ≤ n ∧ n ≤ 267) → page_to_category n = "Accessory".toList)
      ∧ ((268 ≤ n ∧ n ≤ 277) → page_to_category n = "Other".toList)
      ∧ (¬((6 ≤ n ∧ n ≤ 24) ∨ (25 ≤ n ∧ n ≤ 27) ∨ (28 ≤ n ∧ n ≤ 47)
            ∨ (48 ≤ n ∧ n ≤ 53) ∨ (54 ≤ n ∧ n ≤ 66) ∨ (67 ≤ n ∧ n ≤ 69)
            ∨ (70 ≤ n ∧ n ≤ 265) ∨ (266 ≤ n ∧ n ≤ 267) ∨ (268 ≤ n ∧ n ≤ 277)) →
          page_to_category n = [])
      ∧ (1 ≤ n → n ≤ 400 →
          catRanges.Pairwise
            (fun r s => ¬((r.1 ≤ n ∧ n ≤ r.2) ∧ (s.1 ≤ n ∧ n ≤ s.2)))) := by
  intro n
  refine ⟨fun h => ?_, fun h => ?_, fun h => ?_, fun h => ?_, fun h => ?_, fun h => ?_,
    fun h => ?_, fun h => ?_, fun h => ?_, fun h => ?_, fun h1 h2 => ?_⟩
  · simp only [page_to_category]; split_ifs <;> first | rfl | omega
  · simp only [page_to_category]; split_ifs <;> first | rfl | omega
  · simp only [page_to_category]; split_ifs <;> first | rfl | omega
  · simp only [page_to_category]; split_ifs <;> first | rfl | omega
  · simp only [page_to_category]; split_ifs <;> first | rfl | omega
  · simp only [page_to_category]; split_ifs <;> first | rfl | omega
  · simp only [page_to_category]; split_ifs <;> first | rfl | omega
  · simp only [page_to_category]; split_ifs <;> first | rfl | omega
  · simp only [page_to_category]; split_ifs <;> first | rfl | omega
  · simp only [page_to_category]; split_ifs <;> first | rfl | omega
  · simp only [catRanges, List.pairwise_cons, List.forall_mem_cons, List.not_mem_nil,
      List.forall_mem_nil, List.Pairwise.nil, and_true, false_implies, implies_true,
      forall_const]
    omega

theorem append_singleton_isEmpty {α : Type} (acc : List α) (x : α) :
    (acc ++ [x]).isEmpty = false := by
  cases acc <;> rfl

theorem splitBlocksAux_length (ls : List (List Char)) :
    ∀ acc, (splitBlocksAux acc ls).length = ls.countP (fun l => pyIn markerTok l) := by
  induction ls with
  | nil => intro acc; simp [splitBlocksAux, List.countP_nil]
  | cons l rest ih =>
    intro acc
    by_cases h : pyIn markerTok l
    · simp [splitBlocksAux, h, append_singleton_isEmpty, List.countP_cons, ih]
    · simp [splitBlocksAux, h, List.countP_cons, ih]

theorem splitBlocksAux_mem (ls : List (List Char)) :
    ∀ acc b, (∀ x ∈ acc, pyIn markerTok x = false) → b ∈ splitBlocksAux acc ls →
      b ≠ [] ∧ (∃ m, b.getLast? = some m ∧ pyIn markerTok m = true)
        ∧ ∀ x ∈ b.dropLast, pyIn markerTok x = false := by
  induction ls with
  | nil => intro acc b _ hb; simp [splitBlocksAux] at hb
  | cons l rest ih =>
    intro acc b hacc hb
    by_cases h : pyIn markerTok l
    · rw [show splitBlocksAux acc (l :: rest)
          = (acc ++ [l]) :: splitBlocksAux [] rest by
        simp [splitBlocksAux, h, append_singleton_isEmpty]] at hb
      rcases List.mem_cons.mp hb with hb | hb
      · subst hb
        refine ⟨by simp, ⟨l, ?_, h⟩, ?_⟩
        · simp [List.getLast?_append]
        · intro x hx
          rw [List.dropLast_concat] at hx
          exact hacc x hx
      · exact ih [] b (by simp) hb
    · rw [show splitBlocksAux acc (l :: rest) = splitBlocksAux (acc ++ [l]) rest by
        simp [splitBlocksAux, h]] at hb
      refine ih (acc ++ [l]) b ?_ hb
      intro x hx
      rcases List.mem_append.mp hx with hx | hx
      · exact hacc x hx
      · simp at hx; subst hx; simpa using h

theorem splitBlocksAux_flatten (ls : List (List Char)) :
    ∀ acc, (∀ x ∈ acc, pyIn markerTok x = false) →
      ∃ rest, acc ++ ls = (splitBlocksAux acc ls).flatten ++ rest
        ∧ ∀ x ∈ rest, pyIn markerTok x = false := by
  induction ls with
  | nil => intro acc hacc; exact ⟨acc, by simp [splitBlocksAux], hacc⟩
  | cons l rest ih =>
    intro acc hacc
    by_cases h : pyIn markerTok l
    · obtain ⟨r, hr, hrm⟩ := ih [] (by simp)
      refine ⟨r, ?_, hrm⟩
      rw [show splitBlocksAux acc (l :: rest)
          = (acc ++ [l]) :: splitBlocksAux [] rest by
        simp [splitBlocksAux, h, append_singleton_isEmpty]]
      simp only [List.flatten_cons]
      simp only [List.nil_append] at hr
      rw [List.append_assoc, ← hr]
      simp
    · obtain ⟨r, hr, hrm⟩ := ih (acc ++ [l]) (by
        intro x hx
        rcases List.mem_append.mp hx with hx | hx
        · exact hacc x hx
        · simp at hx; subst hx; simpa using h)
      refine ⟨r, ?_, hrm⟩
      rw [show splitBlocksAux acc (l :: rest) = splitBlocksAux (acc ++ [l]) rest by
        simp [splitBlocksAux, h]]
      rw [← hr]
      simp

/-- C5: a sanitized line sequence yields one block per marker line (so two
markers give exactly two blocks and zero markers give zero blocks); every
block is non-empty, ends at its marker line, has no earlier marker, and the
blocks are an initial segment of the lines whose remainder (everything after
the last marker) is marker-free, so lines after the last marker appear in no
block. -/
theorem C5_split_page_blocks_spec :
    ∀ lines : List (List Char),
      (lines.countP (fun l => pyIn markerTok l) = 0 → split_page_blocks lines = [])
      ∧ (split_page_blocks lines).length = lines.countP (fun l => pyIn markerTok l)
      ∧ (∀ b ∈ split_page_blocks lines,
          b ≠ [] ∧ (∃ m, b.getLast? = some m ∧ pyIn markerTok m = true)
            ∧ ∀ x ∈ b.dropLast, pyIn markerTok x = false)
      ∧ ∃ rest, lines = (split_page_blocks lines).flatten ++ rest
          ∧ ∀ x ∈ rest, pyIn markerTok x = false := by
  intro lines
  refine ⟨?_, splitBlocksAux_length lines [], ?_, ?_⟩
  · intro h0
    have hl := splitBlocksAux_length lines []
    rw [h0] at hl
    exact List.length_eq_zero.mp hl
  · intro b hb
    exact splitBlocksAux_mem lines [] b (by simp) hb
  · simpa using splitBlocksAux_flatten lines [] (by simp)

/-- C5 witness: the theorem instantiated on a marker-free sequence (zero
blocks) and on the example page's single block. -/
theorem C5_witness :
    split_page_blocks ["hello".toList] = []
      ∧ (rawDemoLines ≠ []
          ∧ (∃ m, rawDemoLines.getLast? = some m ∧ pyIn markerTok m = true)
          ∧ ∀ x ∈ rawDemoLines.dropLast, pyIn markerTok x = false) := by
  constructor
  · exact (C5_split_page_blocks_spec ["hello".toList]).1 (by decide)
  · exact (C5_split_page_blocks_spec rawDemoLines).2.2.1 rawDemoLines (by decide)

theorem mainBadgesAux_length (dir : List Char) (pages : List Page) :
    ∀ n : Int, (mainBadgesAux dir n pages).length ≤ pages.length := by
  induction pages with
  | nil => intro n; simp [mainBadgesAux]
  | cons pg rest ih =>
    intro n
    cases h : process_page dir n pg with
    | none =>
      simp only [mainBadgesAux, h]
      exact Nat.le_succ_of_le (ih (n + 1))
    | some b =>
      simp only [mainBadgesAux, h, List.length_cons]
      exact Nat.succ_le_succ (ih (n + 1))

/-- C2 counterexample: a page whose sanitized lines contain two marker
lines yields two segmenter blocks, both accepted by the extractor, yet the
pipeline appends only one record — so not every accepted block produces a
record. -/
theorem C2_counterexample_two_blocks_one_record :
    ((split_page_blocks (clean_lines rawDemoTwice)).filter
        (fun b => (parse_badge_core b).isSome)).length = 2
      ∧ (mainBadges "images".toList [demoPageTwice]).length = 1 := by
  constructor
  · decide
  · decide

/-- C2 amended: the pipeline passes only the FIRST block of each page to
the field extractor, appending at most one record per page (exactly when the
first block is accepted), in page order. -/
theorem C2_pipeline_first_block_only :
    ∀ (dir : List Char) (pages : List Page) (pg : Page) (n : Int),
      (mainBadgesAux dir n (pg :: pages)
          = (process_page dir n pg).toList ++ mainBadgesAux dir (n + 1) pages)
      ∧ (mainBadges dir pages).length ≤ pages.length
      ∧ ((process_page dir n pg).isSome = true ↔
          ∃ b0 bs, split_page_blocks (clean_lines pg.rawLines) = b0 :: bs
            ∧ (parse_badge_core b0).isSome = true) := by
  intro dir pages pg n
  refine ⟨?_, mainBadgesAux_length dir pages 1, ?_⟩
  · cases h : process_page dir n pg <;> simp [mainBadgesAux, h]
  · constructor
    · intro hs
      rcases hblocks : split_page_blocks (clean_lines pg.rawLines) with _ | ⟨b0, bs⟩
      · rw [process_page] at hs
        simp only [hblocks] at hs
        simp at hs
      · refine ⟨b0, bs, rfl, ?_⟩
        rcases hp : parse_badge_core b0 with _ | core
        · rw [process_page] at hs
          simp only [hblocks, hp] at hs
          simp at hs
        · simp
    · rintro ⟨b0, bs, hblocks, hp⟩
      rcases hpc : parse_badge_core b0 with _ | core
      · rw [hpc] at hp; simp at hp
      · rw [process_page]
        simp only [hblocks, hpc]
        simp

/-- C2 witness: the amended theorem applied at a one-block page. -/
theorem C2_witness :
    (process_page "images".toList 1 demoPage).isSome = true :=
  (C2_pipeline_first_block_only "images".toList [] demoPage 1).2.2.mpr
    ⟨rawDemoLines, [], by decide, by decide⟩

theorem parse_badge_core_guard (ls : List (List Char)) (core : BadgeCore)
    (h : parse_badge_core ls = some core) :
    core.solderingDifficulty ≠ [] ∨ core.description ≠ [] := by
  simp only [parse_badge_core] at h
  split at h
  · exact absurd h (by simp)
  · split at h
    · exact absurd h (by simp)
    · rename_i hguard
      rw [Option.some.injEq] at h
      subst h
      simp only [Bool.and_eq_true, List.isEmpty_iff] at hguard
      refine or_iff_not_imp_left.mpr (fun hd hdesc => ?_)
      exact hguard ⟨not_not.mp hd, hdesc⟩

theorem process_page_guard (dir : List Char) (n : Int) (pg : Page) (b : Badge)
    (h : process_page dir n pg = some b) :
    b.solderingDifficulty ≠ [] ∨ b.description ≠ [] := by
  simp only [process_page] at h
  split at h
  · exact absurd h (by simp)
  · split at h
    · exact absurd h (by simp)
    · rename_i core hcore
      rw [Option.some.injEq] at h
      subst h
      exact parse_badge_core_guard _ core hcore

theorem mainBadgesAux_guard (dir : List Char) (pages : List Page) :
    ∀ (n : Int) (b : Badge), b ∈ mainBadgesAux dir n pages →
      b.solderingDifficulty ≠ [] ∨ b.description ≠ [] := by
  induction pages with
  | nil => intro n b hb; simp [mainBadgesAux] at hb
  | cons pg rest ih =>
    intro n b hb
    cases h : process_page dir n pg with
    | none =>
      rw [show mainBadgesAux dir n (pg :: rest) = mainBadgesAux dir (n + 1) rest by
        simp [mainBadgesAux, h]] at hb
      exact ih (n + 1) b hb
    | some b0 =>
      rw [show mainBadgesAux dir n (pg :: rest) = b0 :: mainBadgesAux dir (n + 1) rest by
        simp [mainBadgesAux, h]] at hb
      rcases List.mem_cons.mp hb with hb | hb
      · subst hb; exact process_page_guard dir n pg b h
      · exact ih (n + 1) b hb

/-- C7: every record the PDF pipeline appends to the output has a non-empty
soldering difficulty or a non-empty description; blocks where extraction
leaves both empty contribute no record. -/
theorem C7_emitted_records_nonempty :
    ∀ (dir : List Char) (pages : List Page) (b : Badge),
      b ∈ mainBadges dir pages →
      b.solderingDifficulty ≠ [] ∨ b.description ≠ [] := by
  intro dir pages b hb
  exact mainBadgesAux_guard dir pages 1 b hb

/-- C7 witness: the invariant on the record produced from the example
page. -/
theorem C7_witness :
    demoBadge.solderingDifficulty ≠ [] ∨ demoBadge.description ≠ [] :=
  C7_emitted_records_nonempty "images".toList [demoPage] demoBadge (by decide)

theorem mem_insertByArea (x z : EmbeddedImage) (l : List EmbeddedImage) :
    z ∈ insertByArea x l ↔ z = x ∨ z ∈ l := by
  induction l with
  | nil => simp [insertByArea]
  | cons y ys ih =>
    by_cases h : imgArea y ≤ imgArea x
    · simp only [insertByArea, if_pos h, List.mem_cons]
    · rw [insertByArea, if_neg h]
      simp only [List.mem_cons, ih]
      tauto

theorem insertByArea_pairwise (x : EmbeddedImage) (l : List EmbeddedImage)
    (hl : l.Pairwise (fun a b => imgArea b ≤ imgArea a)) :
    (insertByArea x l).Pairwise (fun a b => imgArea b ≤ imgArea a) := by
  induction l with
  | nil => simp [insertByArea]
  | cons y ys ih =>
    rcases List.pairwise_cons.mp hl with ⟨hy, hys⟩
    by_cases h : imgArea y ≤ imgArea x
    · rw [insertByArea, if_pos h]
      refine List.pairwise_cons.mpr ⟨?_, hl⟩
      intro z hz
      rcases List.mem_cons.mp hz with hz | hz
      · subst hz; exact h
      · exact le_trans (hy z hz) h
    · rw [insertByArea, if_neg h]
      refine List.pairwise_cons.mpr ⟨?_, ih hys⟩
      intro z hz
      rcases (mem_insertByArea x z ys).mp hz with hz | hz
      · subst hz; exact le_of_lt (lt_of_not_le h)
      · exact hy z hz

theorem sortByAreaDesc_pairwise (l : List EmbeddedImage) :
    (sortByAreaDesc l).Pairwise (fun a b => imgArea b ≤ imgArea a) := by
  induction l with
  | nil => simp [sortByAreaDesc]
  | cons x xs ih => exact insertByArea_pairwise x (sortByAreaDesc xs) ih

theorem insertByArea_perm (x : EmbeddedImage) (l : List EmbeddedImage) :
    (insertByArea x l).Perm (x :: l) := by
  induction l with
  | nil => simp [insertByArea]
  | cons y ys ih =>
    by_cases h : imgArea y ≤ imgArea x
    · rw [insertByArea, if_pos h]
    · rw [insertByArea, if_neg h]
      exact (ih.cons y).trans (List.Perm.swap x y ys)

theorem sortByAreaDesc_perm (l : List EmbeddedImage) :
    (sortByAreaDesc l).Perm l := by
  induction l with
  | nil => simp [sortByAreaDesc]
  | cons x xs ih =>
    rw [sortByAreaDesc]
    exact (insertByArea_perm x (sortByAreaDesc xs)).trans (ih.cons x)

theorem filter_insertByArea_eq (x : EmbeddedImage) (l : List EmbeddedImage)
    (n : Nat) (hx : imgArea x = n) :
    (insertByArea x l).filter (fun z => decide (imgArea z = n))
      = x :: l.filter (fun z => decide (imgArea z = n)) := by
  induction l with
  | nil => simp [insertByArea, hx]
  | cons y ys ih =>
    by_cases h : imgArea y ≤ imgArea x
    · rw [insertByArea, if_pos h]
      simp [List.filter_cons, hx]
    · rw [insertByArea, if_neg h]
      have hy : ¬(imgArea y = n) := by omega
      simp [List.filter_cons, hy, ih]

theorem filter_insertByArea_ne (x : EmbeddedImage) (l : List EmbeddedImage)
    (n : Nat) (hx : imgArea x ≠ n) :
    (insertByArea x l).filter (fun z => decide (imgArea z = n))
      = l.filter (fun z => decide (imgArea z = n)) := by
  induction l with
  | nil => simp [insertByArea, hx]
  | cons y ys ih =>
    by_cases h : imgArea y ≤ imgArea x
    · rw [insertByArea, if_pos h]
      simp [List.filter_cons, hx]
    · rw [insertByArea, if_neg h]
      simp [List.filter_cons, ih]

theorem sortByAreaDesc_stable (l : List EmbeddedImage) (n : Nat) :
    (sortByAreaDesc l).filter (fun z => decide (imgArea z = n))
      = l.filter (fun z => decide (imgArea z = n)) := by
  induction l with
  | nil => simp [sortByAreaDesc]
  | cons x xs ih =>
    rw [sortByAreaDesc]
    by_cases hx : imgArea x = n
    · rw [filter_insertByArea_eq x (sortByAreaDesc xs) n hx, ih]
      simp [List.filter_cons, hx]
    · rw [filter_insertByArea_ne x (sortByAreaDesc xs) n hx, ih]
      simp [List.filter_cons, hx]

/-- C4: the image pair selector keeps exactly the images with
min(width, height) > 300 and width/height strictly between 0.7 and 1.3,
sorted by area descending by a stable sort (area ties keep extraction
order, expressed by preservation of each equal-area fibre), truncated to at
most two; on the concrete 500x500 / 800x800 / 100x250 / 400x500 input it
returns the 800x800 image then the 500x500 image. -/
theorem C4_get_front_back_images_spec :
    (∀ imgs, get_front_back_images imgs
        = (sortByAreaDesc (imgs.filter isCandidate)).take 2)
    ∧ (∀ imgs, (get_front_back_images imgs).length ≤ 2)
    ∧ (∀ imgs x, x ∈ get_front_back_images imgs →
        (300 < min x.width x.height ∧ 0 < x.height
          ∧ 7 * x.height < 10 * x.width ∧ 10 * x.width < 13 * x.height))
    ∧ (∀ l, (sortByAreaDesc l).Pairwise (fun a b => imgArea b ≤ imgArea a))
    ∧ (∀ l, (sortByAreaDesc l).Perm l)
    ∧ (∀ l n, (sortByAreaDesc l).filter (fun z => decide (imgArea z = n))
        = l.filter (fun z => decide (imgArea z = n)))
    ∧ get_front_back_images [img500, img800, imgWide, img45] = [img800, img500] := by
  refine ⟨fun imgs => rfl, ?_, ?_, sortByAreaDesc_pairwise, sortByAreaDesc_perm,
    sortByAreaDesc_stable, by decide⟩
  · intro imgs
    rw [get_front_back_images]
    simpa using List.length_take_le 2 (sortByAreaDesc (imgs.filter isCandidate))
  · intro imgs x hx
    rw [get_front_back_images] at hx
    have hx2 : x ∈ sortByAreaDesc (imgs.filter isCandidate) := List.take_subset _ _ hx
    have hx3 : x ∈ imgs.filter isCandidate :=
      ((sortByAreaDesc_perm (imgs.filter isCandidate)).mem_iff).mp hx2
    have hc : isCandidate x = true := (List.mem_filter.mp hx3).2
    simp only [isCandidate, Bool.and_eq_true, decide_eq_true_eq] at hc
    omega

/-- C4 witness: the filter facts for the selected 800x800 front image of
the concrete input. -/
theorem C4_witness :
    300 < min img800.width img800.height ∧ 0 < img800.height
      ∧ 7 * img800.height < 10 * img800.width
      ∧ 10 * img800.width < 13 * img800.height :=
  C4_get_front_back_images_spec.2.2.1 [img500, img800, imgWide, img45] img800 (by decide)

theorem pyIn_mem (pat l : List Char) (c : Char) (hin : pyIn pat l = true)
    (hc : c ∈ pat) : c ∈ l := by
  induction l with
  | nil =>
    rw [pyIn, List.isEmpty_iff] at hin
    rw [hin] at hc
    simp at hc
  | cons d ds ih =>
    rw [pyIn, Bool.or_eq_true] at hin
    rcases hin with hp | hr
    · exact (List.isPrefixOf_iff_prefix.mp hp).subset hc
    · exact List.mem_cons_of_mem d (ih hr)

theorem pyStripP_eq_nil_imp (p : Char → Bool) (l : List Char)
    (h : pyStripP p l = []) : ∀ x ∈ l, p x = true := by
  intro x hx
  rw [pyStripP, rstripP] at h
  have h1 := List.dropWhile_eq_nil_iff.mp h
  by_cases hpx : p x = true
  · exact hpx
  · have hxrev : x ∈ l.reverse := List.mem_reverse.mpr hx
    rw [← List.takeWhile_append_dropWhile (p := p) (l := l.reverse)] at hxrev
    rcases List.mem_append.mp hxrev with h2 | h2
    · exact List.mem_takeWhile_imp h2
    · exact h1 x (List.mem_reverse.mpr h2)

theorem pyStrip_ne_nil_of_marker (m : List Char) (h : pyIn markerTok m = true) :
    pyStrip m ≠ [] := by
  intro hnil
  have hB : ('B' : Char) ∈ m := pyIn_mem markerTok m 'B' h (by decide)
  have hsp := pyStripP_eq_nil_imp pyIsSpace m hnil 'B' hB
  exact absurd hsp (by decide)

/-- C3 counterexample: a block holding only a title line and the marker
line is NOT rejected: the description span (which runs to the end of the
block when no difficulty header exists) picks up the marker line itself, so
the block yields one record whose description is the marker text. -/
theorem C3_counterexample_title_marker_block :
    parse_badge_core ["Title".toList, markerTok] ≠ none
      ∧ parse_badge_core ["Title".toList, markerTok]
          = some { title := "Title".toList, author := [], description := markerTok,
                   solderingDifficulty := [], rarity := [], howToAcquire := [],
                   solderingInstructions := [] } := by
  constructor
  · decide
  · decide

/-- C3 amended: for a block of a title line followed by a marker line
(neither line carrying the author anchor nor both difficulty-header
anchors), field extraction does NOT return the no-record sentinel: it
returns a record whose description is the stripped marker line (non-empty)
and whose soldering difficulty is empty. -/
theorem C3_amended_title_marker_accepted :
    ∀ t m : List Char,
      pyIn markerTok m = true →
      pyIn designedTok t = false → pyIn designedTok m = false →
      (pyIn diffTok t && pyIn howTok t) = false →
      (pyIn diffTok m && pyIn howTok m) = false →
      (parse_badge_core [t, m]).isSome = true
        ∧ (parse_badge_core [t, m]).map (fun c => c.description) = some (pyStrip m)
        ∧ pyStrip m ≠ []
        ∧ (parse_badge_core [t, m]).map (fun c => c.solderingDifficulty) = some [] := by
  intro t m hm hd1 hd2 hdh1 hdh2
  have hne : pyStrip m ≠ [] := pyStrip_ne_nil_of_marker m hm
  have hA : findIdxO (fun l => pyIn designedTok l) [t, m] = none := by
    simp [findIdxO, hd1, hd2]
  have hD : findIdxO (fun l => pyIn diffTok l && pyIn howTok l) [t, m] = none := by
    simp [findIdxO, hdh1, hdh2]
  have hKeep : ((!(pyStrip m).isEmpty) : Bool) = true := by
    cases hq : pyStrip m with
    | nil => exact absurd hq hne
    | cons a as => simp
  refine ⟨?_, ?_, hne, ?_⟩ <;>
    (rw [parse_badge_core]
     simp only [hA, hD, List.isEmpty_cons, Bool.false_eq_true, if_false, List.headD,
       List.length_cons, List.length_nil, List.drop_succ_cons, List.drop_zero,
       List.take_succ_cons, List.take_zero, List.filter_cons, List.filter_nil, hKeep,
       joinSep]
     simp [hKeep, Bool.not_eq_true']
     first
       | exact hne
       | exact ⟨_, ⟨hne, rfl⟩, rfl⟩)

/-- C3 witness: the amended theorem instantiated at the concrete
title/marker block. -/
theorem C3_witness :
    (parse_badge_core ["Title".toList, markerTok]).isSome = true
      ∧ (parse_badge_core ["Title".toList, markerTok]).map (fun c => c.description)
          = some (pyStrip markerTok)
      ∧ pyStrip markerTok ≠ []
      ∧ (parse_badge_core ["Title".toList, markerTok]).map
          (fun c => c.solderingDifficulty) = some [] :=
  C3_amended_title_marker_accepted "Title".toList markerTok (by decide) (by decide)
    (by decide) (by decide) (by decide)

theorem dropWhile_head?_false {α : Type} (p : α → Bool) (l : List α) (c : α)
    (h : (l.dropWhile p).head? = some c) : p c = false := by
  induction l with
  | nil => simp [List.dropWhile] at h
  | cons a as ih =>
    rw [List.dropWhile_cons] at h
    by_cases hp : p a = true
    · rw [if_pos hp] at h; exact ih h
    · rw [if_neg hp] at h
      have hac : a = c := by simpa using h
      rw [← hac]
      cases hb : p a
      · rfl
      · exact absurd hb hp

theorem getLast?_of_suffix {α : Type} {l₂ l₁ : List α} (h : l₂ <:+ l₁)
    (hne : l₂ ≠ []) : l₂.getLast? = l₁.getLast? := by
  obtain ⟨pre, rfl⟩ := h
  rcases List.eq_nil_or_concat l₂ with rfl | ⟨L, b, rfl⟩
  · exact absurd rfl hne
  · rw [List.getLast?_append]
    simp [List.getLast?_concat]

theorem pyStripP_head (p : Char → Bool) (l : List Char) (c : Char)
    (h : (pyStripP p l).head? = some c) : p c = false := by
  rw [pyStripP] at h
  exact dropWhile_head?_false p (rstripP p l) c h

theorem pyStripP_getLast (p : Char → Bool) (l : List Char) (c : Char)
    (h : (pyStripP p l).getLast? = some c) : p c = false := by
  rw [pyStripP] at h
  have hne : (rstripP p l).dropWhile p ≠ [] := by
    intro hq; rw [hq] at h; simp at h
  rw [getLast?_of_suffix (List.dropWhile_suffix p) hne] at h
  rw [rstripP, List.getLast?_reverse] at h
  exact dropWhile_head?_false p l.reverse c h

theorem pyStripP_eq_self (p : Char → Bool) (l : List Char)
    (hh : ∀ c, l.head? = some c → p c = false)
    (hl : ∀ c, l.getLast? = some c → p c = false) :
    pyStripP p l = l := by
  rw [pyStripP, rstripP]
  have h1 : l.reverse.dropWhile p = l.reverse := by
    cases hq : l.reverse with
    | nil => simp
    | cons a as =>
      rw [List.dropWhile_cons]
      have ha : l.getLast? = some a := by
        rw [← List.head?_reverse, hq, List.head?_cons]
      rw [hl a ha]
      simp
  rw [h1, List.reverse_reverse]
  cases hq : l with
  | nil => simp
  | cons a as =>
    rw [List.dropWhile_cons]
    have ha : l.head? = some a := by rw [hq, List.head?_cons]
    rw [hh a ha]
    simp

theorem repairLine_cases (l : List Char) :
    repairLine l = l
      ∨ ((repairLine l).head? = some '-' ∧ repairLine l <:+ l ∧ repairLine l ≠ []) := by
  cases l with
  | nil => left; rfl
  | cons c rest =>
    simp only [repairLine]
    split
    · rename_i hcond
      right
      simp only [Bool.and_eq_true, decide_eq_true_eq] at hcond
      obtain ⟨⟨_, _⟩, hdash⟩ := hcond
      refine ⟨hdash, ?_, ?_⟩
      · exact (List.dropWhile_suffix pyIsSpace).trans (List.suffix_cons c rest)
      · intro hq
        rw [hq] at hdash
        simp at hdash
    · left; rfl

theorem is_decor_dash (r : List Char) (h : r.head? = some '-') :
    is_decor r = false := by
  cases r with
  | nil => simp at h
  | cons c cs =>
    have hc : c = '-' := by simpa using h
    subst hc
    simp only [is_decor, List.all_cons, List.filter_cons]
    have h1 : (pyIsDigitCh '-' || pyIsSpace '-') = false := by decide
    have h2 : ('-'.isAlpha && '-'.isUpper) = false := by decide
    have h3 : pyIsDigitCh '-' = false := by decide
    rw [h1, h2, h3]
    simp

theorem repairLine_dash (r : List Char) (h : r.head? = some '-') :
    repairLine r = r := by
  cases r with
  | nil => rfl
  | cons c cs =>
    have hc : c = '-' := by simpa using h
    subst hc
    rfl

theorem list_map_self {α : Type} (l : List α) (f : α → α) (h : ∀ x ∈ l, f x = x) :
    l.map f = l := by
  induction l with
  | nil => rfl
  | cons a as ih =>
    rw [List.map_cons, h a (List.mem_cons_self a as),
      ih (fun x hx => h x (List.mem_cons_of_mem a hx))]

theorem clean_lines_member_props (raw : List (List Char)) :
    ∀ l ∈ clean_lines raw,
      pyStrip l = l ∧ l ≠ [] ∧ is_decor l = false ∧ repairLine l = l := by
  intro l hl
  simp only [clean_lines] at hl
  obtain ⟨l₀, hl₀mem, rfl⟩ := List.mem_map.mp hl
  have h1 := List.mem_filter.mp hl₀mem
  have h2 := List.mem_filter.mp h1.1
  obtain ⟨r0, _, rfl⟩ := List.mem_map.mp h2.1
  have hdec : is_decor (pyStrip r0) = false := by simpa using h1.2
  have hne0 : pyStrip r0 ≠ [] := by
    intro hq
    rw [hq] at h2
    simpa using h2.2
  have hh : ∀ c, (pyStrip r0).head? = some c → pyIsSpace c = false :=
    fun c hc => pyStripP_head pyIsSpace r0 c hc
  have hlast : ∀ c, (pyStrip r0).getLast? = some c → pyIsSpace c = false :=
    fun c hc => pyStripP_getLast pyIsSpace r0 c hc
  rcases repairLine_cases (pyStrip r0) with hcase | ⟨hdash, hsuf, hrne⟩
  · rw [hcase]
    exact ⟨pyStripP_eq_self pyIsSpace (pyStrip r0) hh hlast, hne0, hdec, hcase⟩
  · refine ⟨?_, hrne, is_decor_dash _ hdash, repairLine_dash _ hdash⟩
    apply pyStripP_eq_self
    · intro c hc
      rw [hdash] at hc
      have hcd : '-' = c := by simpa using hc
      rw [← hcd]
      decide
    · intro c hc
      rw [getLast?_of_suffix hsuf hrne] at hc
      exact hlast c hc

/-- C8: the line sanitizer is idempotent — applying it to its own output
changes nothing (output lines are already stripped, non-empty,
non-decoration, and fixed points of the single-letter repair). -/
theorem C8_clean_lines_idempotent :
    ∀ raw : List (List Char), clean_lines (clean_lines raw) = clean_lines raw := by
  intro raw
  have hp := clean_lines_member_props raw
  generalize hE : clean_lines raw = out at hp ⊢
  simp only [clean_lines]
  have hmap1 : out.map pyStrip = out :=
    list_map_self out pyStrip (fun x hx => (hp x hx).1)
  rw [hmap1]
  have hfil1 : out.filter (fun l => !l.isEmpty) = out := by
    refine List.filter_eq_self.mpr ?_
    intro a ha
    cases a with
    | nil => exact absurd rfl (hp [] ha).2.1
    | cons x xs => rfl
  rw [hfil1]
  have hfil2 : out.filter (fun l => !is_decor l) = out := by
    refine List.filter_eq_self.mpr ?_
    intro a ha
    rw [(hp a ha).2.2.1]
    rfl
  rw [hfil2]
  exact list_map_self out repairLine (fun x hx => (hp x hx).2.2.2)

theorem collapseNARun_chars (l : List Char) :
    ∀ b c, c ∈ collapseNARun b l → isLowerAlnum c = true ∨ c = '-' := by
  induction l with
  | nil => intro b c hc; simp [collapseNARun] at hc
  | cons d ds ih =>
    intro b c hc
    rw [collapseNARun] at hc
    by_cases hd : isLowerAlnum d = true
    · rw [if_pos hd] at hc
      rcases List.mem_cons.mp hc with rfl | hc
      · exact Or.inl hd
      · exact ih false c hc
    · rw [if_neg hd] at hc
      cases b with
      | true =>
        rw [if_pos rfl] at hc
        exact ih true c hc
      | false =>
        rw [if_neg (by simp)] at hc
        rcases List.mem_cons.mp hc with rfl | hc
        · exact Or.inr rfl
        · exact ih true c hc

theorem collapseDashRun_subset (l : List Char) :
    ∀ b c, c ∈ collapseDashRun b l → c ∈ l := by
  induction l with
  | nil => intro b c hc; simp [collapseDashRun] at hc
  | cons d ds ih =>
    intro b c hc
    rw [collapseDashRun] at hc
    by_cases hd : d = '-'
    · rw [if_pos hd] at hc
      cases b with
      | true =>
        rw [if_pos rfl] at hc
        exact List.mem_cons_of_mem d (ih true c hc)
      | false =>
        rw [if_neg (by simp)] at hc
        rcases List.mem_cons.mp hc with rfl | hc
        · rw [hd]; exact List.mem_cons_self '-' ds
        · exact List.mem_cons_of_mem d (ih true c hc)
    · rw [if_neg hd] at hc
      rcases List.mem_cons.mp hc with rfl | hc
      · exact List.mem_cons_self c ds
      · exact List.mem_cons_of_mem d (ih false c hc)

theorem pyStripP_subset (p : Char → Bool) (l : List Char) :
    ∀ c ∈ pyStripP p l, c ∈ l := by
  intro c hc
  rw [pyStripP, rstripP] at hc
  have h1 : c ∈ (l.reverse.dropWhile p).reverse :=
    (List.dropWhile_suffix p).sublist.subset hc
  have h2 : c ∈ l.reverse.dropWhile p := List.mem_reverse.mp h1
  have h3 : c ∈ l.reverse := (List.dropWhile_suffix p).sublist.subset h2
  exact List.mem_reverse.mp h3

theorem collapseDashRun_chain (l : List Char) :
    ∀ b, (collapseDashRun b l).Chain' (fun a c => ¬(a = '-' ∧ c = '-'))
      ∧ (b = true → ∀ c, (collapseDashRun b l).head? = some c → c ≠ '-') := by
  induction l with
  | nil =>
    intro b
    constructor
    · simp [collapseDashRun]
    · intro _ c hc; simp [collapseDashRun] at hc
  | cons d ds ih =>
    intro b
    by_cases hd : d = '-'
    · subst hd
      cases b with
      | true =>
        rw [show collapseDashRun true ('-' :: ds) = collapseDashRun true ds by
          rw [collapseDashRun]; simp]
        exact ⟨(ih true).1, fun _ => (ih true).2 rfl⟩
      | false =>
        rw [show collapseDashRun false ('-' :: ds) = '-' :: collapseDashRun true ds by
          rw [collapseDashRun]; simp]
        constructor
        · refine List.chain'_cons'.mpr ⟨?_, (ih true).1⟩
          intro y hy hcon
          exact (ih true).2 rfl y (Option.mem_def.mp hy) hcon.2
        · intro hb; exact absurd hb (by simp)
    · rw [show collapseDashRun b (d :: ds) = d :: collapseDashRun false ds by
        rw [collapseDashRun]; simp [hd]]
      constructor
      · refine List.chain'_cons'.mpr ⟨?_, (ih false).1⟩
        intro y hy hcon
        exact hd hcon.1
      · intro _ c hc
        have hdc : d = c := by simpa using hc
        rw [← hdc]
        exact hd

theorem chain'_pyStripP (p : Char → Bool) (R : Char → Char → Prop)
    (l : List Char) (h : l.Chain' R) : (pyStripP p l).Chain' R := by
  rw [pyStripP, rstripP]
  have hrev : l.reverse.Chain' (flip R) := List.chain'_reverse.mpr h
  have h1 : (l.reverse.dropWhile p).Chain' (flip R) :=
    List.Chain'.suffix hrev (List.dropWhile_suffix p)
  have h2 : ((l.reverse.dropWhile p).reverse).Chain' R := List.chain'_reverse.mpr h1
  exact List.Chain'.suffix h2 (List.dropWhile_suffix p)

/-- C9: slugify maps "Scratch and Sniff!" to "scratch-and-sniff" and the
empty title to "badge"; in general its result is non-empty, made only of
lowercase alphanumerics and dashes, has no leading or trailing dash, and
never contains two adjacent dashes (runs are collapsed). -/
theorem C9_slugify_spec :
    slugify "Scratch and Sniff!".toList = "scratch-and-sniff".toList
    ∧ slugify [] = "badge".toList
    ∧ (∀ t, slugify t ≠ [])
    ∧ (∀ t c, c ∈ slugify t → isLowerAlnum c = true ∨ c = '-')
    ∧ (∀ t c, (slugify t).head? = some c → c ≠ '-')
    ∧ (∀ t c, (slugify t).getLast? = some c → c ≠ '-')
    ∧ (∀ t, (slugify t).Chain' (fun a b => ¬(a = '-' ∧ b = '-'))) := by
  refine ⟨by decide, by decide, ?_, ?_, ?_, ?_, ?_⟩
  · intro t
    simp only [slugify]
    split
    · decide
    · rename_i h5
      intro hq
      rw [hq] at h5
      simp at h5
  · intro t c hc
    simp only [slugify] at hc
    split at hc
    · have : c = 'b' ∨ c = 'a' ∨ c = 'd' ∨ c = 'g' ∨ c = 'e' := by simpa using hc
      rcases this with rfl | rfl | rfl | rfl | rfl <;> exact Or.inl (by decide)
    · have h1 := pyStripP_subset _ _ c hc
      rw [collapseDashes] at h1
      have h2 := collapseDashRun_subset _ false c h1
      rw [collapseNonAlnum] at h2
      exact collapseNARun_chars _ false c h2
  · intro t c hc
    simp only [slugify] at hc
    split at hc
    · have : 'b' = c := by simpa using hc
      rw [← this]; decide
    · have := pyStripP_head _ _ _ hc
      simpa using this
  · intro t c hc
    simp only [slugify] at hc
    split at hc
    · have : ("badge".toList).getLast? = some c := hc
      have he : 'e' = c := by simpa using this
      rw [← he]; decide
    · have := pyStripP_getLast _ _ _ hc
      simpa using this
  · intro t
    simp only [slugify]
    split
    · simp only [show ("badge".toList) = ['b', 'a', 'd', 'g', 'e'] from rfl,
        List.chain'_cons, List.chain'_singleton, and_true]
      refine ⟨?_, ?_, ?_, ?_⟩ <;> decide
    · apply chain'_pyStripP
      rw [collapseDashes]
      exact (collapseDashRun_chain _ false).1

/-- C9 witness: non-emptiness and the character property instantiated on
the example title. -/
theorem C9_witness :
    slugify "Scratch and Sniff!".toList ≠ []
      ∧ (isLowerAlnum 's' = true ∨ 's' = '-') :=
  ⟨C9_slugify_spec.2.2.1 "Scratch and Sniff!".toList,
   C9_slugify_spec.2.2.2.1 "Scratch and Sniff!".toList 's' (by decide)⟩

/-- C10: when a CSV row's key matches an existing badge, the emitted
record's three image URLs come verbatim from the existing badge, every other
field comes from the CSV row, and the result does not depend on the image
downloader at all (no download is attempted for that row). -/
theorem C10_csv_existing_badge_images_reused :
    ∀ (existing : List ((List Char × List Char) × Badge))
      (download : List Char → List Char → List Char)
      (hm : HeaderMap) (row : CsvRow) (eb : Badge) (b : Badge),
      List.lookup (badge_key (pyGet row hm.title) (pyGet row hm.conferenceYear)) existing
          = some eb →
      process_row existing download hm row = some b →
      (b.profilePictureUrl = eb.profilePictureUrl
        ∧ b.frontImageUrl = eb.frontImageUrl
        ∧ b.backImageUrl = eb.backImageUrl)
      ∧ (b.title = pyGet row hm.title
        ∧ b.author = pyGet row hm.author
        ∧ b.description = pyGet row hm.description
        ∧ b.specialInstructions = pyGet row hm.specialInstructions
        ∧ b.solderingInstructions = pyGet row hm.solderingInstructions
        ∧ b.solderingDifficulty = pyGet row hm.solderingDifficulty
        ∧ b.quantityMade = pyParseInt (pyGet row hm.quantityMade)
        ∧ b.category = pyGet row hm.category
        ∧ b.conferenceYear = pyGet row hm.conferenceYear
        ∧ b.boardHouse = pyGet row hm.boardHouse
        ∧ b.howToAcquire = pyGet row hm.howToAcquire
        ∧ b.rarity = pyGet row hm.rarity
        ∧ b.timestamp = pyGet row hm.timestamp)
      ∧ (∀ download2, process_row existing download2 hm row = some b) := by
  intro existing download hm row eb b hlk hpr
  simp only [process_row] at hpr
  split at hpr
  · exact absurd hpr (by simp)
  · rename_i hcond
    rw [hlk] at hpr
    rw [Option.some.injEq] at hpr
    subst hpr
    refine ⟨⟨rfl, rfl, rfl⟩,
      ⟨rfl, rfl, rfl, rfl, rfl, rfl, rfl, rfl, rfl, rfl, rfl, rfl, rfl⟩, ?_⟩
    intro d2
    simp only [process_row]
    rw [if_neg hcond, hlk]

/-- C10 witness: the theorem instantiated on a concrete cache, header map
and row whose key matches. -/
theorem C10_witness :
    demoMergedBadge.frontImageUrl = demoExistingBadge.frontImageUrl
      ∧ demoMergedBadge.title = pyGet demoRow demoHM.title
      ∧ demoMergedBadge.quantityMade = pyParseInt (pyGet demoRow demoHM.quantityMade) := by
  have h := C10_csv_existing_badge_images_reused demoExisting demoDownload demoHM demoRow
    demoExistingBadge demoMergedBadge (by decide) (by decide)
  exact ⟨h.1.2.1, h.2.1.1, h.2.1.2.2.2.2.2.2.1⟩

/-- C6 witness: the classifier evaluated inside and outside the ranges. -/
theorem C6_witness :
    page_to_category 10 = "Sponsor".toList ∧ page_to_category 266 = "Accessory".toList
      ∧ page_to_category 300 = [] := by
  refine ⟨(C6_page_to_category_partition 10).1 (by decide), ?_, ?_⟩
  · exact (C6_page_to_category_partition 266).2.2.2.2.2.2.2.1 (by decide)
  · exact (C6_page_to_category_partition 300).2.2.2.2.2.2.2.2.2.1 (by decide)

end Minibadge
